import Mathlib

/-!
Verification of the Sioux bayeux/pubsub core against its specification.

The development shallowly embeds the C++ sources:
 - `source/pubsub/node.cpp` (node names, node versions, nodes and their
   bounded delta ring),
 - `source/bayeux/bayeux.cpp` (the session connector: use counts, idle
   timers, dropping sessions),
 - the session / subscription-registry behaviour of `bayeux::session` and
   `pubsub::root` (whose implementation files are not part of the sources;
   those parts are modelled from the specification, as marked on each
   definition).

Machine integers are embedded as `Nat`/`Int` with explicit saturation where
the source saturates; the json value type is kept abstract (a type
parameter) wherever the source only compares, sizes or stores values.
-/

namespace Sioux

/-- Largest value of the C type int (std::numeric_limits<int>::max()). -/
def intMax : Int := 2147483647

/-- Smallest value of the C type int (std::numeric_limits<int>::min()). -/
def intMin : Int := -2147483648

/-- Embeds pubsub::node_version::operator- (node.cpp, lines 191-203): the
two unsigned version counters are subtracted in 64-bit signed arithmetic
and the result is saturated to the range of int.  The counter values are
embedded as natural numbers. -/
def versionSub (a b : Nat) : Int :=
  let distance : Int := (a : Int) - (b : Int)
  if distance > 0 ∧ distance > intMax then intMax
  else if distance < 0 ∧ distance < intMin then intMin
  else distance

/-- Embeds pubsub::node (node.cpp): current value, version counter and the
ring of recent update deltas (a json::array embedded as a list).  The
version counter is an unsigned integer in the source; it is embedded as an
unbounded natural number. -/
structure Node (J : Type) where
  data : J
  version : Nat
  updates : List J
deriving DecidableEq

/-- Modelled from the spec: the constructor
json::array(const array& other, number_to_copy, start_idx) is declared in
json.h (lines 332-335) but its implementation (json.cpp) is not among the
sources; per the declaration's documentation it copies `number_to_copy`
element references starting at index `start_idx`. -/
def arraySlice {J : Type} (l : List J) (numberToCopy startIdx : Nat) : List J :=
  (l.drop startIdx).take numberToCopy

/-- Embeds pubsub::node::get_update_from (node.cpp, lines 273-281):
computes the saturated distance from `known_version` to the current
version; if it is not positive or exceeds the ring length the full current
value is returned with flag false, otherwise the last `distance` deltas of
the ring with flag true. -/
def Node.get_update_from {J : Type} (n : Node J) (known_version : Nat) :
    Bool × (J ⊕ List J) :=
  let distance := versionSub n.version known_version
  if distance ≤ 0 ∨ distance > (n.updates.length : Int) then
    (false, Sum.inl n.data)
  else
    (true, Sum.inr (arraySlice n.updates distance.toNat
      (n.updates.length - distance.toNat)))

/-- Modelled from the spec: json::value::size() of a json array (the byte
count of its serialized form "[e1,...,en]"; implementation json.cpp absent
from the sources): two brackets, the element sizes, and one comma between
adjacent elements. -/
def arraySize {J : Type} (size : J → Nat) (l : List J) : Nat :=
  2 + (l.map size).sum + (l.length - 1)

/-- Embeds pubsub::node::remove_old_versions (node.cpp, lines 307-311):
oldest deltas are erased from the front of the ring while the ring is
non-empty and its serialized size exceeds `max_size`. -/
def remove_old_versions {J : Type} (size : J → Nat) (max_size : Nat) :
    List J → List J
  | [] => []
  | x :: xs =>
    if arraySize size (x :: xs) > max_size then
      remove_old_versions size max_size xs
    else x :: xs

/-- Embeds pubsub::node::update (node.cpp, lines 283-305).  The json delta
computation (json/delta.h, implementation absent from the sources) and the
serialized-size function are passed as parameters: `delta old new budget`
returns a flag telling whether a delta not larger than the budget was
found, together with the delta.  An update with a value equal to the
current value returns false and leaves the node untouched; otherwise the
delta is stored if one fits the budget, the value is replaced, the version
is incremented and the ring is trimmed. -/
def Node.update {J : Type} [DecidableEq J] (delta : J → J → Nat → Bool × J)
    (size : J → Nat) (n : Node J) (new_data : J)
    (keep_update_size_percent : Nat) : Bool × Node J :=
  if new_data = n.data then (false, n)
  else
    let max_size := size new_data * keep_update_size_percent / 100
    let updates1 :=
      if max_size ≠ 0 then
        let update_instruction := delta n.data new_data max_size
        if update_instruction.1 then n.updates ++ [update_instruction.2]
        else n.updates
      else n.updates
    (true, { data := new_data, version := n.version + 1,
             updates := remove_old_versions size max_size updates1 })

/-- Embeds the two event-queue options of bayeux::configuration used by the
session: the count cap and the byte cap of the per-session event queue. -/
structure Configuration where
  max_messages_per_client : Nat
  max_messages_size_per_client : Nat
deriving DecidableEq

/-- Modelled from the spec: the events a session enqueues for its client
(bayeux/session.cpp is not among the sources; the shapes follow §3 of the
specification and the expected json objects of session_test.cpp):
subscribe/unsubscribe acknowledgments echo the client id, the channel and
a verbatim request id, node updates carry the channel, the payload and an
optional message id. -/
inductive SessionEvent (J : Type) where
  | subscribeAck (clientId : String) (subscription : String)
      (successful : Bool) (error : Option String) (reqId : Option J)
  | unsubscribeAck (clientId : String) (subscription : String)
      (successful : Bool) (error : Option String) (reqId : Option J)
  | updateEvent (channel : String) (data : J) (msgId : Option J)
deriving DecidableEq

/-- Summed serialized size of the queued events, as counted against
max_messages_size_per_client. -/
def queue_size {E : Type} (size : E → Nat) (q : List E) : Nat :=
  (q.map size).sum

/-- Both queue caps hold: the event count is within
max_messages_per_client and the summed size within
max_messages_size_per_client. -/
def within_caps {E : Type} (size : E → Nat) (cfg : Configuration)
    (q : List E) : Prop :=
  q.length ≤ cfg.max_messages_per_client ∧
    queue_size size q ≤ cfg.max_messages_size_per_client

instance {E : Type} (size : E → Nat) (cfg : Configuration) (q : List E) :
    Decidable (within_caps size cfg q) := by
  unfold within_caps; infer_instance

/-- Modelled from the spec: the session's queue eviction (§4.3, "on
enqueue, if either cap would be exceeded, drop from the head until both
hold"; bayeux/session.cpp absent from the sources): oldest events are
dropped from the front until both caps hold. -/
def prune_queue {E : Type} (size : E → Nat) (cfg : Configuration) :
    List E → List E
  | [] => []
  | e :: rest =>
    if within_caps size cfg (e :: rest) then e :: rest
    else prune_queue size cfg rest

/-- Modelled from the spec: enqueuing one event appends it at the tail and
then enforces both caps by dropping oldest events first. -/
def enqueue_event {E : Type} (size : E → Nat) (cfg : Configuration)
    (q : List E) (e : E) : List E :=
  prune_queue size cfg (q ++ [e])

/-- Modelled from the spec: per-session state relevant to long polling — the
pending event queue and the at-most-one parked long-poll response
(bayeux/session.cpp absent from the sources). -/
structure SessionState (E R : Type) where
  queue : List E
  waiting_response : Option R
deriving DecidableEq

/-- Modelled from the spec: the notifications a session sends to a parked
response object: second_connection_detected, or new_message with the
drained events. -/
inductive Notification (E R : Type) where
  | second_connection_detected (r : R)
  | new_message (r : R) (events : List E)
deriving DecidableEq

/-- Modelled from the spec: bayeux::session::wait_for_events (§4.3;
bayeux/session.cpp absent from the sources).  With a non-empty queue the
queued events are returned at once and no reference to the response is
kept; with an empty queue the response is stored as the waiting response,
and a previously stored response is first notified with
second_connection_detected and dropped.  The result is the new session
state, the events handed back synchronously, and the notifications sent. -/
def wait_for_events {E R : Type} (s : SessionState E R) (response : R) :
    SessionState E R × List E × List (Notification E R) :=
  if s.queue.isEmpty then
    match s.waiting_response with
    | some prior =>
        ({ queue := [], waiting_response := some response }, [],
          [Notification.second_connection_detected prior])
    | none => ({ s with waiting_response := some response }, [], [])
  else
    ({ s with queue := [] }, s.queue, [])

/-- Modelled from the spec: enqueuing an event on the session (§3,
"any enqueue with a non-null waiting_response atomically hands the batch
to that response and clears it"); without a parked response the event goes
through the cap-enforcing queue. -/
def session_enqueue {E R : Type} (size : E → Nat) (cfg : Configuration)
    (s : SessionState E R) (e : E) :
    SessionState E R × List (Notification E R) :=
  match s.waiting_response with
  | some r =>
      ({ queue := [], waiting_response := none },
        [Notification.new_message r (enqueue_event size cfg s.queue e)])
  | none =>
      ({ s with queue := enqueue_event size cfg s.queue e }, [])

/-- Modelled from the spec: outcome of the subscribe handshake driven by
the subscription registry (§4.2; pubsub/root.cpp and bayeux/session.cpp
absent from the sources).  The three adapter answers are embedded as
values: `validated`, `authorized`, and `initial` (none embeds a skipped
initialization).  `is_null` tells whether a json value is null,
`data_of`/`id_of` extract the update payload and the optional id the
session copies into the update event.  Failures yield exactly one
acknowledgment carrying the fixed error text; success yields the
acknowledgment, followed immediately by the initial update when the
initial value is not null. -/
def subscribe_outcome {J : Type} (clientId channel : String)
    (reqId : Option J) (validated authorized : Bool) (initial : Option J)
    (is_null : J → Bool) (data_of : J → J) (id_of : J → Option J) :
    List (SessionEvent J) :=
  if !validated then
    [SessionEvent.subscribeAck clientId channel false
      (some "invalid subscription") reqId]
  else if !authorized then
    [SessionEvent.subscribeAck clientId channel false
      (some "authorization failed") reqId]
  else
    match initial with
    | none =>
        [SessionEvent.subscribeAck clientId channel false
          (some "initialization failed") reqId]
    | some v =>
        if is_null v then
          [SessionEvent.subscribeAck clientId channel true none reqId]
        else
          [SessionEvent.subscribeAck clientId channel true none reqId,
            SessionEvent.updateEvent channel (data_of v) (id_of v)]

/-- Embeds connector::session_data (bayeux.cpp, lines 132-140): the use
count (starting at 1), the remove_ flag (initialized to false and never
written elsewhere in the source), and the per-session timer, embedded as
an armed-flag. -/
structure SessionData where
  use_count : Nat
  remove : Bool
  timer_armed : Bool
deriving DecidableEq

/-- The connector's sessions_ map, keyed by session id.  The index_ map of
the source (session pointer to map iterator) is represented by the id
itself: in the source both maps hold exactly the same entries. -/
abbrev Sessions := List (String × SessionData)

/-- Lookup of sessions_.find(session_id) (bayeux.cpp). -/
def find_data (st : Sessions) (session_id : String) : Option SessionData :=
  (st.find? (fun e => e.1 == session_id)).map (fun e => e.2)

/-- Embeds connector::create_session (bayeux.cpp, lines 46-67) for an id
that is not yet in use (the source regenerates ids until unused): the new
entry starts with use_count 1, remove_ false, and no timer pending. -/
def create_session (st : Sessions) (session_id : String) : Sessions :=
  st ++ [(session_id, ⟨1, false, false⟩)]

/-- Embeds connector::find_session (bayeux.cpp, lines 29-43): a present
session gets its use count incremented; nothing else changes. -/
def find_session (st : Sessions) (session_id : String) : Sessions :=
  st.map (fun e =>
    if e.1 == session_id then
      (e.1, { e.2 with use_count := e.2.use_count + 1 })
    else e)

/-- Embeds connector::idle_session (bayeux.cpp, lines 69-85; the source
asserts that the session is present with a positive use count): the use
count is decremented and, when it reaches zero, the session timer is armed
with the configured session timeout. -/
def idle_session (st : Sessions) (session_id : String) : Sessions :=
  st.map (fun e =>
    if e.1 == session_id then
      (e.1, { use_count := e.2.use_count - 1, remove := e.2.remove,
              timer_armed :=
                if e.2.use_count - 1 = 0 then true else e.2.timer_armed })
    else e)

/-- Embeds connector::drop_session (bayeux.cpp, lines 87-106): the session
is erased from both maps exactly when it is present with use count zero;
otherwise the call changes nothing. -/
def drop_session (st : Sessions) (session_id : String) : Sessions :=
  match find_data st session_id with
  | some d =>
      if d.use_count = 0 then
        List.eraseP (fun e => e.1 == session_id) st
      else st
  | none => st

/-- Embeds connector::session_timeout_reached (bayeux.cpp, lines 114-130),
on the path where the timer fired without error: a session still present
with use count zero is erased from both maps; otherwise nothing happens. -/
def session_timeout_reached (st : Sessions) (session_id : String) :
    Sessions :=
  match find_data st session_id with
  | some d =>
      if d.use_count = 0 then
        List.eraseP (fun e => e.1 == session_id) st
      else st
  | none => st

/-- Character sequences stand in for the std::string and json::string text
of the source; list structure keeps the substring arithmetic of
node_name's constructor elementary. -/
abbrev Str := List Char

/-- Embeds the lexicographic std::string comparison used by
key_domain::operator< and by the ordering of json object keys. -/
def ltStr : Str → Str → Bool
  | [], [] => false
  | [], _ :: _ => true
  | _ :: _, [] => false
  | a :: as, b :: bs => if a < b then true else if b < a then false else ltStr as bs

/-- Modelled from the spec: the serialized form of a json string
(tools::as_string over a json::string; implementation json.cpp absent from
the sources) is the text wrapped in double quotes. -/
def serializeString (s : Str) : Str := '"' :: (s ++ ['"'])

/-- Embeds the substring step of pubsub's to_domain functor (node.cpp,
lines 24-31): text.substr(1, text.size()-2). -/
def stripOuter (text : Str) : Str := (text.drop 1).take (text.length - 2)

/-- Embeds the to_domain functor (node.cpp, lines 24-31): a json key is
serialized and the surrounding quotes are stripped, yielding the domain
text. -/
def to_domain (s : Str) : Str := stripOuter (serializeString s)

/-- Modelled from the spec: a json value as seen by node_name — either a
json string with its text, or any other value represented by its
serialized form (all that convert_to_str in node.cpp observes). -/
inductive JVal where
  | str (s : Str)
  | nonstr (serialized : Str)
deriving DecidableEq

/-- Embeds convert_to_str (node.cpp, lines 40-45): a string value yields
its character sequence, any other value its serialized form. -/
def convert_to_str : JVal → Str
  | .str s => s
  | .nonstr t => t

/-- Modelled from the spec: a json object (implementation json.cpp absent
from the sources), embedded as its property list kept sorted by key in
descending order, so that object::keys() returns the keys "in descent
order" as documented in json.h. -/
abbrev JObject := List (Str × JVal)

/-- Modelled from the spec: json::object::add (json.h; implementation
absent from the sources): inserts the property at its place in the
descending key order, replacing the value of an existing key. -/
def JObject.add : JObject → Str → JVal → JObject
  | [], k, v => [(k, v)]
  | (k', v') :: rest, k, v =>
    if ltStr k' k then (k, v) :: (k', v') :: rest
    else if ltStr k k' then (k', v') :: JObject.add rest k v
    else (k, v) :: rest

/-- Modelled from the spec: json::object::keys (json.h: the keys "will be
ordered in descent order"). -/
def JObject.keys (o : JObject) : List Str := o.map (fun e => e.1)

/-- Modelled from the spec: json::object::at (json.h; implementation
absent from the sources).  The source throws std::out_of_range for a
missing key; every lookup in this development is on a present key, and a
missing key is embedded as a junk value. -/
def JObject.atKey (o : JObject) (k : Str) : JVal :=
  match o.find? (fun e => e.1 == k) with
  | some e => e.2
  | none => JVal.nonstr []

/-- Embeds a pubsub::key (pubsub/key.h as used by node.cpp): a domain and
its value text. -/
structure Key where
  domain : Str
  value : Str
deriving DecidableEq

/-- Embeds pubsub::node_name (node.cpp): the ordered key list. -/
structure NodeName where
  keys_ : List Key
deriving DecidableEq

/-- Embeds the insertion step of std::sort as used on the small domain
vectors of node_name's constructor: ascending insertion by
key_domain::operator<. -/
def ordInsert (x : Str) : List Str → List Str
  | [] => [x]
  | y :: ys => if ltStr y x then y :: ordInsert x ys else x :: y :: ys

/-- Embeds the std::sort call of node_name's constructor (node.cpp, line
53): the domains are brought into ascending order. -/
def sortStr : List Str → List Str
  | [] => []
  | x :: xs => ordInsert x (sortStr xs)

/-- Embeds node_name::node_name(const json::object&) (node.cpp, lines
47-59): the object's keys are stripped to domains, sorted ascending, and
each domain is paired with the text of the object's value under that
domain. -/
def node_name_of_object (o : JObject) : NodeName :=
  let domains := (JObject.keys o).map to_domain
  let sorted := sortStr domains
  { keys_ := sorted.map (fun d => Key.mk d (convert_to_str (JObject.atKey o d))) }

/-- Embeds pubsub::node_name::to_json (node.cpp, lines 158-166): one
string-valued property per key, added in key order. -/
def NodeName.to_json (n : NodeName) : JObject :=
  n.keys_.foldl (fun o k => JObject.add o k.domain (JVal.str k.value)) []

/-- Embeds pubsub::node_name::operator== (node.cpp, lines 61-73): equal
sizes and pairwise equal keys. -/
def NodeName.eqb (a b : NodeName) : Bool :=
  a.keys_.length == b.keys_.length &&
    (List.zip a.keys_ b.keys_).all (fun p => p.1 == p.2)

/-! Theorems.  Shared helper lemmas come first, then one theorem per claim
(with a witness where the theorem carries hypotheses). -/

theorem versionSub_eq_clamp (a b : Nat) :
    versionSub a b = max intMin (min intMax ((a : Int) - b)) := by
  simp only [versionSub, intMax, intMin]
  split_ifs <;> omega

theorem arraySlice_last {J : Type} (l : List J) (k : Nat) (hk : k ≤ l.length) :
    arraySlice l k (l.length - k) = l.drop (l.length - k) := by
  unfold arraySlice
  apply List.take_of_length_le
  rw [List.length_drop]
  omega

/-- C9: the difference of two node versions is the mathematical signed
difference of the counters, saturated to the range of int: results above
INT_MAX yield INT_MAX, results below INT_MIN yield INT_MIN. -/
theorem C9_version_difference_saturates (a b : Nat) :
    versionSub a b = max (-2147483648) (min 2147483647 ((a : Int) - b)) := by
  rw [versionSub_eq_clamp a b]
  norm_num [intMax, intMin]

/-- C3: update_from answers with the last (current - known) ring deltas, in
order, exactly when the known version lies within the delta ring, and with
the full current value otherwise.  The ring is trimmed by the source to a
small size budget; the theorem assumes its length stays below INT_MAX so
that the source's int cast of the length is lossless. -/
theorem C3_update_from (J : Type) (n : Node J) (known : Nat)
    (hring : (n.updates.length : Int) < intMax) :
    ((0 < (n.version : Int) - known ∧
        (n.version : Int) - known ≤ n.updates.length) →
      n.get_update_from known =
        (true, Sum.inr (n.updates.drop
          (n.updates.length - ((n.version : Int) - known).toNat)))) ∧
    (¬ (0 < (n.version : Int) - known ∧
        (n.version : Int) - known ≤ n.updates.length) →
      n.get_update_from known = (false, Sum.inl n.data)) := by
  have hclamp := versionSub_eq_clamp n.version known
  simp only [intMax, intMin] at hclamp hring
  constructor
  · rintro ⟨h1, h2⟩
    have hv : versionSub n.version known = (n.version : Int) - known := by omega
    have hk : ((n.version : Int) - known).toNat ≤ n.updates.length := by omega
    simp only [Node.get_update_from, hv]
    rw [if_neg (by omega)]
    rw [arraySlice_last n.updates _ hk]
  · intro h
    have hcond : versionSub n.version known ≤ 0 ∨
        versionSub n.version known > (n.updates.length : Int) := by omega
    simp only [Node.get_update_from]
    rw [if_pos hcond]

/-- Witness for C3 at a concrete node: version 10, ring of three deltas,
known version 8 lies inside the ring, known version 6 outside. -/
theorem C3_witness :
    (((⟨99, 10, [1, 2, 3]⟩ : Node Nat).updates.length : Int) < intMax ∧
      (⟨99, 10, [1, 2, 3]⟩ : Node Nat).get_update_from 8 =
        (true, Sum.inr [2, 3])) ∧
    (((⟨99, 10, [1, 2, 3]⟩ : Node Nat).updates.length : Int) < intMax ∧
      (⟨99, 10, [1, 2, 3]⟩ : Node Nat).get_update_from 6 =
        (false, Sum.inl 99)) := by
  refine ⟨⟨by decide, ?_⟩, ⟨by decide, ?_⟩⟩
  · have h := (C3_update_from Nat ⟨99, 10, [1, 2, 3]⟩ 8 (by decide)).1
      (by constructor <;> decide)
    simpa using h
  · have h := (C3_update_from Nat ⟨99, 10, [1, 2, 3]⟩ 6 (by decide)).2
      (by decide)
    simpa using h

/-- C4: an update with a value equal to the node's current value returns
false and leaves the value, the version and the delta ring unchanged. -/
theorem C4_update_equal_value (J : Type) [DecidableEq J]
    (delta : J → J → Nat → Bool × J) (size : J → Nat) (n : Node J)
    (new_data : J) (pct : Nat) (h : new_data = n.data) :
    Node.update delta size n new_data pct = (false, n) := by
  simp [Node.update, h]

/-- Witness for C4 at a concrete node holding value 1. -/
theorem C4_witness :
    (1 : Nat) = (⟨1, 5, [2]⟩ : Node Nat).data ∧
    Node.update (fun _ b _ => (true, b)) (fun x => x)
      (⟨1, 5, [2]⟩ : Node Nat) 1 30 = (false, ⟨1, 5, [2]⟩) :=
  ⟨rfl, C4_update_equal_value Nat _ _ _ _ _ rfl⟩

/-- C5 counterexample: an update whose new value equals the current value
does not increment the version — node::update returns before touching the
version counter, so at value 1, version 5 the version stays 5 and is not
bumped to 6 as the claim states. -/
theorem C5_counterexample :
    ¬ (Node.update (fun _ b _ => (true, b)) (fun x => x)
        (⟨1, 5, []⟩ : Node Nat) 1 100).2.version =
      (⟨1, 5, []⟩ : Node Nat).version + 1 := by
  decide

/-- C5 (amended): an update whose new value differs from the current value
increments the version exactly once, whatever the delta computation
decides (a delta is merely not stored when it would exceed the budget);
an update with an equal value returns false and leaves the version
unchanged. -/
theorem C5_version_increment (J : Type) [DecidableEq J]
    (delta : J → J → Nat → Bool × J) (size : J → Nat) (n : Node J)
    (new_data : J) (pct : Nat) (h : new_data ≠ n.data) :
    (Node.update delta size n new_data pct).1 = true ∧
    (Node.update delta size n new_data pct).2.version = n.version + 1 ∧
    (Node.update delta size n new_data pct).2.data = new_data := by
  simp [Node.update, h]

/-- Witness for C5's amended statement: updating value 1 to 2 bumps the
version from 5 to 6. -/
theorem C5_witness :
    (2 : Nat) ≠ (⟨1, 5, []⟩ : Node Nat).data ∧
    ((Node.update (fun _ b _ => (true, b)) (fun x => x)
        (⟨1, 5, []⟩ : Node Nat) 2 100).1 = true ∧
      (Node.update (fun _ b _ => (true, b)) (fun x => x)
        (⟨1, 5, []⟩ : Node Nat) 2 100).2.version =
        (⟨1, 5, []⟩ : Node Nat).version + 1 ∧
      (Node.update (fun _ b _ => (true, b)) (fun x => x)
        (⟨1, 5, []⟩ : Node Nat) 2 100).2.data = 2) :=
  ⟨by decide, C5_version_increment Nat _ _ _ _ _ (by decide)⟩

/-- C1: when wait_for_events finds a previously stored waiting response,
that prior response is notified with second_connection_detected exactly
once (it is the whole notification output of the call) and dropped, no
events are handed to it, and the new response becomes the sole stored
waiting response. -/
theorem C1_second_connection_replaced (E R : Type) (s : SessionState E R)
    (response prior : R) (hw : s.waiting_response = some prior)
    (hq : s.queue = []) :
    (wait_for_events s response).1.waiting_response = some response ∧
    (wait_for_events s response).1.queue = [] ∧
    (wait_for_events s response).2.1 = [] ∧
    (wait_for_events s response).2.2 =
      [Notification.second_connection_detected prior] := by
  simp [wait_for_events, hq, hw]

/-- Witness for C1: a session with an empty queue and response 7 parked;
response 9 arrives. -/
theorem C1_witness :
    (⟨[], some 7⟩ : SessionState Nat Nat).waiting_response = some 7 ∧
    (⟨[], some 7⟩ : SessionState Nat Nat).queue = [] ∧
    ((wait_for_events (⟨[], some 7⟩ : SessionState Nat Nat)
        9).1.waiting_response = some 9 ∧
      (wait_for_events (⟨[], some 7⟩ : SessionState Nat Nat) 9).1.queue = [] ∧
      (wait_for_events (⟨[], some 7⟩ : SessionState Nat Nat) 9).2.1 = [] ∧
      (wait_for_events (⟨[], some 7⟩ : SessionState Nat Nat) 9).2.2 =
        [Notification.second_connection_detected 7]) :=
  ⟨rfl, rfl, C1_second_connection_replaced Nat Nat _ 9 7 rfl rfl⟩

/-- C6: a successful subscription whose initialization supplies a non-null
value produces exactly the success acknowledgment followed immediately by
the initial-data update event on the same channel: the acknowledgment
strictly precedes the update and the two are adjacent. -/
theorem C6_ack_precedes_initial_update (J : Type) (clientId channel : String)
    (reqId : Option J) (initial : Option J) (v : J) (is_null : J → Bool)
    (data_of : J → J) (id_of : J → Option J) (hinit : initial = some v)
    (hnn : is_null v = false) :
    subscribe_outcome clientId channel reqId true true initial is_null
        data_of id_of =
      [SessionEvent.subscribeAck clientId channel true none reqId,
        SessionEvent.updateEvent channel (data_of v) (id_of v)] := by
  subst hinit
  simp [subscribe_outcome, hnn]

/-- Witness for C6: the concrete subscription of session_test.cpp with
initial value 42 on channel /foo/bar/chu. -/
theorem C6_witness :
    (some 42 : Option Nat) = some 42 ∧
    (fun _ : Nat => false) 42 = false ∧
    subscribe_outcome "sss" "/foo/bar/chu" (none : Option Nat) true true
        (some 42) (fun _ => false) (fun x => x) (fun _ => none) =
      [SessionEvent.subscribeAck "sss" "/foo/bar/chu" true none none,
        SessionEvent.updateEvent "/foo/bar/chu" 42 none] :=
  ⟨rfl, rfl,
    C6_ack_precedes_initial_update Nat "sss" "/foo/bar/chu" none (some 42) 42
      (fun _ => false) (fun x => x) (fun _ => none) rfl rfl⟩

/-- C7: a failed validation yields one subscribe event with successful
false and error "invalid subscription", a failed authorization yields
"authorization failed", a skipped initialization yields "initialization
failed"; each failure event echoes the client id, the subscription channel
and the request id, and the outcome function is total (no exception
escapes). -/
theorem C7_subscription_failure_errors (J : Type) (clientId channel : String)
    (reqId : Option J) (authX : Bool) (initX : Option J) (is_null : J → Bool)
    (data_of : J → J) (id_of : J → Option J) :
    subscribe_outcome clientId channel reqId false authX initX is_null
        data_of id_of =
      [SessionEvent.subscribeAck clientId channel false
        (some "invalid subscription") reqId] ∧
    subscribe_outcome clientId channel reqId true false initX is_null
        data_of id_of =
      [SessionEvent.subscribeAck clientId channel false
        (some "authorization failed") reqId] ∧
    subscribe_outcome clientId channel reqId true true none is_null
        data_of id_of =
      [SessionEvent.subscribeAck clientId channel false
        (some "initialization failed") reqId] := by
  refine ⟨?_, ?_, ?_⟩ <;> simp [subscribe_outcome]

theorem prune_queue_suffix (E : Type) (size : E → Nat) (cfg : Configuration) :
    ∀ l : List E, prune_queue size cfg l <:+ l
  | [] => List.suffix_refl _
  | e :: rest => by
    unfold prune_queue
    split_ifs with h
    · exact List.suffix_refl _
    · exact (prune_queue_suffix E size cfg rest).trans (List.suffix_cons e rest)

theorem prune_queue_caps (E : Type) (size : E → Nat) (cfg : Configuration) :
    ∀ l : List E, within_caps size cfg (prune_queue size cfg l)
  | [] => by simp [prune_queue, within_caps, queue_size]
  | e :: rest => by
    unfold prune_queue
    split_ifs with h
    · exact h
    · exact prune_queue_caps E size cfg rest

theorem foldl_enqueue_suffix (E : Type) (size : E → Nat) (cfg : Configuration) :
    ∀ (es q : List E), es.foldl (enqueue_event size cfg) q <:+ q ++ es
  | [], q => by simp
  | e :: es, q => by
    have h1 := foldl_enqueue_suffix E size cfg es (enqueue_event size cfg q e)
    obtain ⟨t, ht⟩ := prune_queue_suffix E size cfg (q ++ [e])
    simp only [List.foldl_cons]
    refine h1.trans ⟨t, ?_⟩
    show t ++ (prune_queue size cfg (q ++ [e]) ++ es) = q ++ e :: es
    rw [← List.append_assoc, ht, List.append_assoc, List.singleton_append]

theorem foldl_enqueue_caps (E : Type) (size : E → Nat) (cfg : Configuration) :
    ∀ (es q : List E), within_caps size cfg q →
      within_caps size cfg (es.foldl (enqueue_event size cfg) q)
  | [], _, h => h
  | e :: es, q, _ =>
    foldl_enqueue_caps E size cfg es _ (prune_queue_caps E size cfg (q ++ [e]))

/-- C2: after any sequence of enqueued events the session queue respects
both caps — at most max_messages_per_client events whose summed size is at
most max_messages_size_per_client — and the retained events form a suffix
of the enqueued sequence (oldest events are dropped first); in particular
with a count cap of 2, enqueuing the updates with data 1, 2, 3 retains
exactly the updates with data 2 and 3, in order. -/
theorem C2_queue_caps (E : Type) (size : E → Nat) (cfg : Configuration)
    (es : List E) :
    (es.foldl (enqueue_event size cfg) []).length ≤
      cfg.max_messages_per_client ∧
    queue_size size (es.foldl (enqueue_event size cfg) []) ≤
      cfg.max_messages_size_per_client ∧
    es.foldl (enqueue_event size cfg) [] <:+ es ∧
    [SessionEvent.updateEvent "/a/b" (1 : Nat) none,
        SessionEvent.updateEvent "/a/b" 2 none,
        SessionEvent.updateEvent "/a/b" 3 none].foldl
        (enqueue_event (fun _ => 10) ⟨2, 10000⟩) [] =
      [SessionEvent.updateEvent "/a/b" (2 : Nat) none,
        SessionEvent.updateEvent "/a/b" 3 none] := by
  have hcaps := foldl_enqueue_caps E size cfg es []
    (by simp [within_caps, queue_size])
  have hsuf := foldl_enqueue_suffix E size cfg es []
  exact ⟨hcaps.1, hcaps.2, by simpa using hsuf, by decide⟩

theorem find_data_cons (e : String × SessionData) (rest : Sessions)
    (sid : String) :
    find_data (e :: rest) sid =
      if e.1 = sid then some e.2 else find_data rest sid := by
  by_cases he : e.1 = sid
  · simp [find_data, List.find?_cons_of_pos, he]
  · simp [find_data, List.find?_cons_of_neg, he]

theorem find_data_eraseP :
    ∀ (st : Sessions) (sid : String), (st.map Prod.fst).Nodup →
      find_data (List.eraseP (fun e => e.1 == sid) st) sid = none
  | [], _, _ => rfl
  | e :: rest, sid, hnd => by
    rw [List.map_cons] at hnd
    by_cases he : e.1 = sid
    · rw [List.eraseP_cons_of_pos (by simp [he])]
      have hnotin : sid ∉ rest.map Prod.fst := by
        rw [← he]; exact (List.nodup_cons.mp hnd).1
      have hfind : List.find? (fun e => e.1 == sid) rest = none := by
        refine List.find?_eq_none.mpr ?_
        intro x hx
        simp only [beq_iff_eq]
        intro hx1
        exact hnotin (hx1 ▸ List.mem_map_of_mem Prod.fst hx)
      simp [find_data, hfind]
    · rw [List.eraseP_cons_of_neg (by simp [he])]
      rw [find_data_cons, if_neg he]
      exact find_data_eraseP rest sid (List.nodup_cons.mp hnd).2

theorem find_data_idle :
    ∀ (st : Sessions) (sid : String),
      find_data (idle_session st sid) sid =
        (find_data st sid).map (fun d =>
          ⟨d.use_count - 1, d.remove,
            if d.use_count - 1 = 0 then true else d.timer_armed⟩)
  | [], _ => rfl
  | e :: rest, sid => by
    by_cases he : e.1 = sid
    · simp [idle_session, find_data_cons, he, List.map_cons]
    · simp only [idle_session, List.map_cons, if_neg (by simp [he] :
        ¬ (e.1 == sid) = true)]
      rw [find_data_cons, if_neg he, find_data_cons, if_neg he]
      exact find_data_idle rest sid

theorem map_fst_idle (st : Sessions) (sid : String) :
    (idle_session st sid).map Prod.fst = st.map Prod.fst := by
  induction st with
  | nil => rfl
  | cons e rest ih =>
    by_cases he : e.1 = sid <;>
      simp [idle_session, he, ih] <;>
      simpa [idle_session] using ih

/-- C8 counterexample: dropping a session whose use count is still 1 and
then performing the next idle transition (the use count drops to zero and
the idle timer is armed) leaves the session in the connector's maps — its
removal is not performed at the idle transition, contradicting the claim
that a deferred drop happens there. -/
theorem C8_counterexample :
    ¬ find_data (idle_session (drop_session (create_session [] "s") "s") "s")
        "s" = none := by
  decide

/-- C8 (amended): drop_session removes the session exactly when it is
present with use count zero at the time of the call; with a positive use
count the call leaves the connector state entirely unchanged (nothing is
scheduled), the next idle transition only arms the idle timer while the
session stays in the maps, and the session is removed when the timer then
expires with the use count still zero. -/
theorem C8_drop_semantics (st : Sessions) (sid : String)
    (hnodup : (st.map Prod.fst).Nodup) :
    (find_data (drop_session st sid) sid = none ↔
      (find_data st sid = none ∨
        ∃ d, find_data st sid = some d ∧ d.use_count = 0)) ∧
    (∀ d, find_data st sid = some d → d.use_count ≠ 0 →
      drop_session st sid = st) ∧
    (∀ d, find_data st sid = some d → d.use_count = 1 →
      find_data (idle_session (drop_session st sid) sid) sid =
        some ⟨0, d.remove, true⟩ ∧
      find_data (session_timeout_reached
        (idle_session (drop_session st sid) sid) sid) sid = none) := by
  have hdrop_eq : ∀ d, find_data st sid = some d → d.use_count ≠ 0 →
      drop_session st sid = st := by
    intro d hd h0
    simp [drop_session, hd, h0]
  refine ⟨?_, hdrop_eq, ?_⟩
  · cases hfd : find_data st sid with
    | none => simp [drop_session, hfd]
    | some d =>
      by_cases h0 : d.use_count = 0
      · have hde : drop_session st sid =
            List.eraseP (fun e => e.1 == sid) st := by
          rw [drop_session, hfd]
          exact if_pos h0
        rw [hde, find_data_eraseP st sid hnodup]
        simp [hfd, h0]
      · rw [hdrop_eq d hfd h0]
        simp only [hfd]
        constructor
        · intro h; exact absurd h (by simp)
        · rintro (h | ⟨d', hd', h0'⟩)
          · exact absurd h (by simp)
          · rw [Option.some_inj.mp hd'.symm] at h0'
            exact absurd h0' (by simpa using h0)
  · intro d hd h1
    rw [hdrop_eq d hd (by omega)]
    have hidle : find_data (idle_session st sid) sid =
        some ⟨0, d.remove, true⟩ := by
      rw [find_data_idle st sid, hd]
      simp [h1]
    refine ⟨hidle, ?_⟩
    rw [session_timeout_reached, hidle]
    simp only [if_pos rfl]
    exact find_data_eraseP _ sid (by rw [map_fst_idle]; exact hnodup)

/-- Witness for C8's amended statement: a single session with use count 1;
drop does nothing, the idle transition arms the timer with the session
still present, and the timer expiry removes it. -/
theorem C8_witness :
    (([("s", (⟨1, false, false⟩ : SessionData))].map Prod.fst).Nodup ∧
      find_data [("s", (⟨1, false, false⟩ : SessionData))] "s" =
        some ⟨1, false, false⟩) ∧
    drop_session [("s", (⟨1, false, false⟩ : SessionData))] "s" =
      [("s", (⟨1, false, false⟩ : SessionData))] ∧
    find_data (idle_session (drop_session
        [("s", (⟨1, false, false⟩ : SessionData))] "s") "s") "s" =
      some ⟨0, false, true⟩ ∧
    find_data (session_timeout_reached (idle_session (drop_session
        [("s", (⟨1, false, false⟩ : SessionData))] "s") "s") "s") "s" =
      none := by
  have h := C8_drop_semantics [("s", (⟨1, false, false⟩ : SessionData))] "s"
    (by decide)
  have h2 := h.2.1 ⟨1, false, false⟩ (by decide) (by decide)
  have h3 := h.2.2 ⟨1, false, false⟩ (by decide) (by decide)
  exact ⟨⟨by decide, by decide⟩, h2, h3.1, h3.2⟩

theorem ltStr_irrefl : ∀ s : Str, ltStr s s = false
  | [] => rfl
  | a :: as => by simp [ltStr, ltStr_irrefl as]

theorem ltStr_ne (a b : Str) (h : ltStr a b = true) : a ≠ b := by
  intro he
  subst he
  rw [ltStr_irrefl] at h
  exact Bool.false_ne_true h

theorem to_domain_id (s : Str) : to_domain s = s := by
  have h : ('"' :: (s ++ ['"'])).length - 2 = s.length := by
    simp
  simp only [to_domain, stripOuter, serializeString, List.drop_succ_cons,
    List.drop_zero, h]
  exact List.take_left s ['"']

theorem JObject.add_of_gt :
    ∀ (o : JObject) (k : Str) (v : JVal),
      (∀ e ∈ o, ltStr e.1 k = true) → JObject.add o k v = (k, v) :: o
  | [], _, _, _ => rfl
  | (k', v') :: rest, k, v, h => by
    have hk : ltStr k' k = true := h (k', v') (List.mem_cons_self _ _)
    simp [JObject.add, hk]

theorem foldl_add_desc :
    ∀ (ks : List Key) (acc : JObject),
      (∀ e ∈ acc, ∀ k ∈ ks, ltStr e.1 k.domain = true) →
      List.Pairwise (fun a b => ltStr a.domain b.domain = true) ks →
      ks.foldl (fun o k => JObject.add o k.domain (JVal.str k.value)) acc =
        (ks.map (fun k => (k.domain, JVal.str k.value))).reverse ++ acc
  | [], acc, _, _ => by simp
  | k :: ks, acc, hacc, hpair => by
    simp only [List.foldl_cons]
    rw [JObject.add_of_gt acc k.domain _
      (fun e he => hacc e he k (List.mem_cons_self k ks))]
    have hrec := foldl_add_desc ks ((k.domain, JVal.str k.value) :: acc)
      (by
        intro e he k' hk'
        rcases List.mem_cons.mp he with he1 | he2
        · rw [he1]
          exact (List.pairwise_cons.mp hpair).1 k' hk'
        · exact hacc e he2 k' (List.mem_cons_of_mem k hk'))
      hpair.of_cons
    rw [hrec]
    simp

theorem find?_of_mem_nodup :
    ∀ (o : JObject) (d : Str) (v : JVal),
      (o.map Prod.fst).Nodup → (d, v) ∈ o →
      o.find? (fun e => e.1 == d) = some (d, v)
  | [], _, _, _, hmem => absurd hmem (List.not_mem_nil _)
  | e :: rest, d, v, hnd, hmem => by
    rw [List.map_cons] at hnd
    rcases List.mem_cons.mp hmem with he | he
    · rw [← he]
      exact List.find?_cons_of_pos _ (by simp)
    · have hd : d ∈ rest.map Prod.fst := List.mem_map_of_mem Prod.fst he
      have hne : ¬ ((fun e => e.1 == d) e = true) := by
        simp only [beq_iff_eq]
        intro h1
        exact (List.nodup_cons.mp hnd).1 (h1 ▸ hd)
      have hstep : List.find? (fun e => e.1 == d) (e :: rest) =
          List.find? (fun e => e.1 == d) rest :=
        List.find?_cons_of_neg rest hne
      rw [hstep]
      exact find?_of_mem_nodup rest d v (List.nodup_cons.mp hnd).2 he

theorem ordInsert_of_gt :
    ∀ (l : List Str) (x : Str), (∀ y ∈ l, ltStr y x = true) →
      ordInsert x l = l ++ [x]
  | [], _, _ => rfl
  | y :: ys, x, h => by
    have hy : ltStr y x = true := h y (List.mem_cons_self _ _)
    simp [ordInsert, hy,
      ordInsert_of_gt ys x (fun z hz => h z (List.mem_cons_of_mem y hz))]

theorem sortStr_of_desc :
    ∀ l : List Str, List.Pairwise (fun a b => ltStr b a = true) l →
      sortStr l = l.reverse
  | [], _ => rfl
  | x :: xs, hp => by
    show ordInsert x (sortStr xs) = (x :: xs).reverse
    rw [sortStr_of_desc xs hp.of_cons]
    rw [ordInsert_of_gt xs.reverse x
      (fun y hy => (List.pairwise_cons.mp hp).1 y (List.mem_reverse.mp hy))]
    simp

theorem all_zip_self : ∀ l : List Key,
    (List.zip l l).all (fun p => p.1 == p.2) = true
  | [] => rfl
  | k :: ks => by simp [List.zip_cons_cons, all_zip_self ks]

theorem NodeName.eqb_refl (a : NodeName) : NodeName.eqb a a = true := by
  simp [NodeName.eqb, all_zip_self]

/-- C10: the json round trip of a node name is the identity — to_json
emits one string-valued property per key, and rebuilding a node_name from
that object (the constructor strips the serialized keys back to domains,
sorts them, and keeps the string values unchanged) yields a name equal to
the original under operator==.  The hypothesis is the class invariant that
the stored keys are strictly ascending by domain, which both constructors
of the source establish. -/
theorem C10_node_name_roundtrip (n : NodeName)
    (hsorted : List.Pairwise (fun a b => ltStr a.domain b.domain = true)
      n.keys_) :
    NodeName.eqb (node_name_of_object (NodeName.to_json n)) n = true := by
  suffices h : node_name_of_object (NodeName.to_json n) = n by
    rw [h]; exact NodeName.eqb_refl n
  have hstore : NodeName.to_json n =
      (n.keys_.map (fun k => (k.domain, JVal.str k.value))).reverse := by
    have h := foldl_add_desc n.keys_ []
      (by intro e he; exact absurd he (List.not_mem_nil e)) hsorted
    simpa [NodeName.to_json] using h
  have hnodupdom : (n.keys_.map Key.domain).Nodup :=
    List.pairwise_map.mpr (hsorted.imp (fun hab => ltStr_ne _ _ hab))
  have hmapfst :
      ((n.keys_.map (fun k => (k.domain, JVal.str k.value))).reverse).map
        Prod.fst = (n.keys_.map Key.domain).reverse := by
    rw [List.map_reverse, List.map_map]
    rfl
  have hlook : ∀ k ∈ n.keys_,
      JObject.atKey
        ((n.keys_.map (fun k => (k.domain, JVal.str k.value))).reverse)
        k.domain = JVal.str k.value := by
    intro k hk
    have hmem : (k.domain, JVal.str k.value) ∈
        (n.keys_.map (fun k => (k.domain, JVal.str k.value))).reverse := by
      rw [List.mem_reverse]
      exact List.mem_map_of_mem _ hk
    have hnd :
        (((n.keys_.map (fun k => (k.domain, JVal.str k.value))).reverse).map
          Prod.fst).Nodup := by
      rw [hmapfst]
      exact List.nodup_reverse.mpr hnodupdom
    unfold JObject.atKey
    rw [find?_of_mem_nodup _ _ _ hnd hmem]
  have hkeys : JObject.keys
      ((n.keys_.map (fun k => (k.domain, JVal.str k.value))).reverse) =
      (n.keys_.map Key.domain).reverse := hmapfst
  have hdesc : List.Pairwise (fun a b => ltStr b a = true)
      ((n.keys_.map Key.domain).reverse) := by
    rw [List.pairwise_reverse]
    exact List.pairwise_map.mpr hsorted
  have hdom : (((n.keys_.map Key.domain).reverse).map to_domain) =
      (n.keys_.map Key.domain).reverse := by
    rw [List.map_congr_left (fun a _ => to_domain_id a)]
    simp
  simp only [node_name_of_object]
  rw [hstore, hkeys, hdom, sortStr_of_desc _ hdesc, List.reverse_reverse,
    List.map_map]
  have hfinal : ∀ k ∈ n.keys_,
      ((fun d => Key.mk d (convert_to_str (JObject.atKey
          ((n.keys_.map (fun k => (k.domain, JVal.str k.value))).reverse)
          d))) ∘ Key.domain) k = id k := by
    intro k hk
    show Key.mk k.domain (convert_to_str (JObject.atKey _ k.domain)) = k
    rw [hlook k hk]
    rfl
  rw [List.map_congr_left hfinal, List.map_id]

/-- Witness for C10: a concrete two-key node name with ascending domains
round-trips through to_json. -/
theorem C10_witness :
    List.Pairwise (fun a b => ltStr a.domain b.domain = true)
      (⟨[⟨['a'], ['b']⟩, ⟨['c'], ['d']⟩]⟩ : NodeName).keys_ ∧
    NodeName.eqb
      (node_name_of_object (NodeName.to_json
        (⟨[⟨['a'], ['b']⟩, ⟨['c'], ['d']⟩]⟩ : NodeName)))
      (⟨[⟨['a'], ['b']⟩, ⟨['c'], ['d']⟩]⟩ : NodeName) = true :=
  ⟨by decide, C10_node_name_roundtrip _ (by decide)⟩

end Sioux
